import Mathlib

/-!
Verification of the home-utils media reconciliation scripts.

This file gives a shallow embedding, in Lean 4, of the logic of
`src/gphoto_parser.py` and `src/update_metadata.py`:

* the zip-based Hamming distance over hash strings (`_hamming_distance`),
* the per-name hash comparison and Matching/Divergent classification and
  the missing-media report of `find_missing_media`,
* the chained-comparison geodata guard of `_check_geodata`,
* the sidecar timestamp parsing of `_get_datetime_from_google_metadata`
  (datetime values are modelled as instants tagged with a zone name;
  `astimezone` preserves the instant and retags the zone),
* the WhatsApp/Telegram filename patterns and the EXIF update logic of
  `wa_images_parser` / `telegram_images_parser` (the image's EXIF block is
  modelled by its DateTimeOriginal field; a run of a parser returns the new
  EXIF state and what happened, `none` standing for a raised exception).

Strings are modelled as `List Char`; Python dicts that the scripts iterate
over are modelled as association lists in insertion order.
-/

namespace HomeUtils

/-- Embedding of `_hamming_distance` (gphoto_parser.py):
`sum(c1 != c2 for c1, c2 in zip(chaine1, chaine2))`.  Python's `zip`
truncates to the shorter argument, so only paired positions are counted. -/
def hammingDistance (chaine1 chaine2 : List Char) : Nat :=
  (chaine1.zip chaine2).countP (fun p => decide (p.1 ≠ p.2))

theorem hammingDistance_nil_left (l : List Char) : hammingDistance [] l = 0 := by
  simp [hammingDistance]

theorem hammingDistance_nil_right (l : List Char) : hammingDistance l [] = 0 := by
  simp [hammingDistance]

theorem hammingDistance_cons (a b : List Char) (x y : Char) :
    hammingDistance (x :: a) (y :: b) =
      hammingDistance a b + (if x ≠ y then 1 else 0) := by
  simp [hammingDistance, List.countP_cons]

theorem hammingDistance_comm (l1 l2 : List Char) :
    hammingDistance l1 l2 = hammingDistance l2 l1 := by
  induction l1 generalizing l2 with
  | nil => simp [hammingDistance_nil_left, hammingDistance_nil_right]
  | cons x a ih =>
    cases l2 with
    | nil => simp [hammingDistance_nil_left, hammingDistance_nil_right]
    | cons y b =>
      rw [hammingDistance_cons, hammingDistance_cons, ih]
      by_cases h : x = y <;> simp [h, Ne, eq_comm]

theorem hammingDistance_eq_zero_iff (l1 l2 : List Char)
    (h : l1.length = l2.length) : hammingDistance l1 l2 = 0 ↔ l1 = l2 := by
  induction l1 generalizing l2 with
  | nil =>
    cases l2 with
    | nil => simp [hammingDistance_nil_left]
    | cons y b => simp at h
  | cons x a ih =>
    cases l2 with
    | nil => simp at h
    | cons y b =>
      simp only [List.length_cons, Nat.succ.injEq] at h
      rw [hammingDistance_cons]
      by_cases hxy : x = y
      · simp [hxy, ih b h]
      · simp [hxy]

theorem hammingDistance_le_min (l1 l2 : List Char) :
    hammingDistance l1 l2 ≤ min l1.length l2.length := by
  calc hammingDistance l1 l2 ≤ (l1.zip l2).length := List.countP_le_length _
    _ = min l1.length l2.length := List.length_zip l1 l2

/-- C9: for equal-length strings the zip-based Hamming distance of
`_hamming_distance` is symmetric, is zero exactly when the strings are
equal, and is bounded by the common length. -/
theorem hammingDistance_equal_length_props (l1 l2 : List Char)
    (h : l1.length = l2.length) :
    hammingDistance l1 l2 = hammingDistance l2 l1 ∧
    (hammingDistance l1 l2 = 0 ↔ l1 = l2) ∧
    hammingDistance l1 l2 ≤ l1.length := by
  refine ⟨hammingDistance_comm l1 l2, hammingDistance_eq_zero_iff l1 l2 h, ?_⟩
  have := hammingDistance_le_min l1 l2
  omega

/-- Witness for C9 at the concrete pair "abcd" / "abcf". -/
theorem hammingDistance_equal_length_props_witness :
    hammingDistance "abcd".data "abcf".data = hammingDistance "abcf".data "abcd".data ∧
    (hammingDistance "abcd".data "abcf".data = 0 ↔ "abcd".data = "abcf".data) ∧
    hammingDistance "abcd".data "abcf".data ≤ "abcd".data.length :=
  hammingDistance_equal_length_props "abcd".data "abcf".data (by decide)

/-- C4 counterexample: on the unequal-length pair "ab" / "a" the distance
computation does not signal any error; it returns the number 0 (the `zip`
silently truncates to the one paired position, where the characters agree). -/
theorem hammingDistance_unequal_length_no_error :
    "ab".data.length ≠ "a".data.length ∧ hammingDistance "ab".data "a".data = 0 := by
  constructor
  · decide
  · decide

/-- C4 amended: comparing strings of unequal length is not an error; the
computation truncates both strings to the shorter length (the value equals
the Hamming distance of the equal-length truncations) and is bounded by
the shorter length. -/
theorem hammingDistance_truncates (l1 l2 : List Char) :
    hammingDistance l1 l2 =
      hammingDistance (l1.take l2.length) (l2.take l1.length) ∧
    hammingDistance l1 l2 ≤ min l1.length l2.length := by
  refine ⟨?_, hammingDistance_le_min l1 l2⟩
  induction l1 generalizing l2 with
  | nil => simp [hammingDistance_nil_left]
  | cons x a ih =>
    cases l2 with
    | nil => simp [hammingDistance_nil_right]
    | cons y b =>
      simp only [List.length_cons, List.take_succ_cons]
      rw [hammingDistance_cons, hammingDistance_cons, ih b]

/-- The five named perceptual fingerprints of one media file, as stored
under the `hashes` key of a catalog entry (gphoto_parser.py,
`generate_media_infos`). -/
structure HashSet where
  average : List Char
  perceptual : List Char
  difference : List Char
  wavelet : List Char
  colorhash : List Char
deriving DecidableEq

/-- One catalog entry: `{path: ..., hashes: {...}}`. -/
structure MediaRecord where
  path : String
  hashes : HashSet
deriving DecidableEq

/-- A fingerprint catalog document: names mapped to records, in insertion
order (Python dicts preserve insertion order and have unique keys). -/
abbrev Catalog := List (String × MediaRecord)

/-- One `if src_hashes[k] != dst_hashes[k]` block of `find_missing_media`:
append the kind to `mismatching_hashes` and add the Hamming distance to
`total_distance` when the strings differ. -/
def hashKindStep (s d : List Char) (kind : String)
    (acc : List String × Nat) : List String × Nat :=
  if s ≠ d then (acc.1 ++ [kind], acc.2 + hammingDistance s d) else acc

/-- The five comparison blocks of `find_missing_media`, in source order:
`average`, `perceptual`, `difference`, `wavelet`, `colorhash`.  Returns the
final `(mismatching_hashes, total_distance)`. -/
def compareHashes (src dst : HashSet) : List String × Nat :=
  hashKindStep src.colorhash dst.colorhash "colorhash"
    (hashKindStep src.wavelet dst.wavelet "wavelet"
      (hashKindStep src.difference dst.difference "difference"
        (hashKindStep src.perceptual dst.perceptual "perceptual"
          (hashKindStep src.average dst.average "average" ([], 0)))))

/-- The matching-engine verdict for a name present in both catalogs. -/
inductive Verdict where
  | matching : Verdict
  | divergent (mismatchedHashKinds : List String) (totalDistance : Nat) : Verdict
deriving DecidableEq

/-- The classification at the end of the `else` branch of
`find_missing_media`: `if mismatching_hashes and total_distance > 10` the
mismatch is reported (Divergent), otherwise the entry is logged as
matching. -/
def classifyPair (src dst : HashSet) : Verdict :=
  let c := compareHashes src dst
  if c.1 ≠ [] ∧ c.2 > 10 then .divergent c.1 c.2 else .matching

theorem hashKindStep_of_eq (s : List Char) (kind : String)
    (acc : List String × Nat) : hashKindStep s s kind acc = acc := by
  simp [hashKindStep]

theorem compareHashes_fst_nil_iff (src dst : HashSet) :
    (compareHashes src dst).1 = [] ↔
      (src.average = dst.average ∧ src.perceptual = dst.perceptual ∧
       src.difference = dst.difference ∧ src.wavelet = dst.wavelet ∧
       src.colorhash = dst.colorhash) := by
  simp only [compareHashes, hashKindStep]
  by_cases h1 : src.average = dst.average <;>
    by_cases h2 : src.perceptual = dst.perceptual <;>
      by_cases h3 : src.difference = dst.difference <;>
        by_cases h4 : src.wavelet = dst.wavelet <;>
          by_cases h5 : src.colorhash = dst.colorhash <;>
            simp [h1, h2, h3, h4, h5]

theorem compareHashes_all_eq (src dst : HashSet)
    (h1 : src.average = dst.average) (h2 : src.perceptual = dst.perceptual)
    (h3 : src.difference = dst.difference) (h4 : src.wavelet = dst.wavelet)
    (h5 : src.colorhash = dst.colorhash) :
    compareHashes src dst = ([], 0) := by
  simp [compareHashes, hashKindStep, h1, h2, h3, h4, h5]

/-- C1: classification of a name present in both catalogs.  If all five
hash strings are literally equal the comparison yields no mismatched kind
and total distance 0 and the verdict is Matching; if at least one kind
differs and the summed Hamming distance over the differing kinds exceeds
10, the verdict is Divergent (carrying the mismatched kinds and the
total); if at least one kind differs but the total is at most 10 the
verdict is still Matching.  In particular two kinds differing by 3 and 4
characters (total 7) give Matching. -/
theorem classifyPair_spec (src dst : HashSet) :
    ((src.average = dst.average ∧ src.perceptual = dst.perceptual ∧
      src.difference = dst.difference ∧ src.wavelet = dst.wavelet ∧
      src.colorhash = dst.colorhash) →
      compareHashes src dst = ([], 0) ∧ classifyPair src dst = .matching) ∧
    ((compareHashes src dst).1 ≠ [] → (compareHashes src dst).2 > 10 →
      classifyPair src dst =
        .divergent (compareHashes src dst).1 (compareHashes src dst).2) ∧
    ((compareHashes src dst).1 ≠ [] → (compareHashes src dst).2 ≤ 10 →
      classifyPair src dst = .matching) ∧
    (compareHashes
        ⟨"00000000".data, "11111111".data, "22222222".data, "3".data, "4".data⟩
        ⟨"00000abc".data, "1111wxyz".data, "22222222".data, "3".data, "4".data⟩ =
        (["average", "perceptual"], 7) ∧
      classifyPair
        ⟨"00000000".data, "11111111".data, "22222222".data, "3".data, "4".data⟩
        ⟨"00000abc".data, "1111wxyz".data, "22222222".data, "3".data, "4".data⟩ =
        .matching) := by
  refine ⟨?_, ?_, ?_, ?_, ?_⟩
  · rintro ⟨h1, h2, h3, h4, h5⟩
    have hc := compareHashes_all_eq src dst h1 h2 h3 h4 h5
    refine ⟨hc, ?_⟩
    simp [classifyPair, hc]
  · intro hne hgt
    simp only [classifyPair]
    rw [if_pos ⟨hne, hgt⟩]
  · intro hne hle
    simp only [classifyPair]
    rw [if_neg]
    omega
  · decide
  · decide

/-- The loop body of `find_missing_media` over the source items, with the
destination catalog and the `missing_media` accumulator explicit.  A name
absent from the destination is appended to the accumulator as
`{path: info.path}` unless it is already there, which raises
(`ValueError`, the `.error` case); a name present in the destination only
gets classified (log output, no effect on the report). -/
def findMissingAux (dst : Catalog) :
    Catalog → List (String × String) → Except String (List (String × String))
  | [], missing => .ok missing
  | (name, info) :: rest, missing =>
    if (dst.lookup name).isSome then
      findMissingAux dst rest missing
    else if (missing.lookup name).isSome then
      .error ("Duplicate media name found in source data: " ++ name)
    else
      findMissingAux dst rest (missing ++ [(name, info.path)])

/-- Embedding of `find_missing_media` (gphoto_parser.py): the persisted
`missing_media` document, or the duplicate-source-name error. -/
def find_missing_media (src dst : Catalog) :
    Except String (List (String × String)) :=
  findMissingAux dst src []

/-- The names of the source catalog absent from the destination, each
paired with its source path, in source order. -/
def missingOf (src dst : Catalog) : List (String × String) :=
  (src.filter (fun p => (dst.lookup p.1).isNone)).map
    (fun p => (p.1, p.2.path))

/-- A concrete source catalog used by the witnesses below. -/
def exSrcCatalog : Catalog :=
  [("a.jpg", ⟨"/src/a.jpg", ⟨"0".data, "1".data, "2".data, "3".data, "4".data⟩⟩),
   ("b.jpg", ⟨"/src/b.jpg", ⟨"5".data, "6".data, "7".data, "8".data, "9".data⟩⟩)]

/-- A concrete destination catalog: holds a.jpg (with a differing average
hash) and not b.jpg. -/
def exDstCatalog : Catalog :=
  [("a.jpg", ⟨"/dst/a.jpg", ⟨"x".data, "1".data, "2".data, "3".data, "4".data⟩⟩)]

theorem missingOf_cons_in_dst (nm : String) (info : MediaRecord)
    (rest dst : Catalog) (v : MediaRecord) (h : List.lookup nm dst = some v) :
    missingOf ((nm, info) :: rest) dst = missingOf rest dst := by
  simp [missingOf, List.filter_cons, h]

theorem missingOf_cons_missing (nm : String) (info : MediaRecord)
    (rest dst : Catalog) (h : List.lookup nm dst = none) :
    missingOf ((nm, info) :: rest) dst =
      (nm, info.path) :: missingOf rest dst := by
  simp [missingOf, List.filter_cons, h]

theorem lookup_cons_self {β : Type} (k : String) (v : β)
    (l : List (String × β)) : List.lookup k ((k, v) :: l) = some v := by
  simp [List.lookup]

theorem lookup_cons_ne {β : Type} (k k2 : String) (v : β)
    (l : List (String × β)) (h : k ≠ k2) :
    List.lookup k ((k2, v) :: l) = List.lookup k l := by
  simp [List.lookup, beq_eq_false_iff_ne.mpr h]

theorem lookup_append {β : Type} (k : String) (l1 l2 : List (String × β)) :
    List.lookup k (l1 ++ l2) = (List.lookup k l1).or (List.lookup k l2) := by
  induction l1 with
  | nil => simp [List.lookup]
  | cons p t ih =>
    by_cases h : k = p.1
    · simp [List.lookup, beq_iff_eq.mpr h]
    · simp [List.lookup, beq_eq_false_iff_ne.mpr h, ih]

theorem lookup_eq_none_of_not_mem {β : Type} (k : String)
    (l : List (String × β)) (h : k ∉ l.map Prod.fst) :
    List.lookup k l = none := by
  induction l with
  | nil => simp [List.lookup]
  | cons p t ih =>
    simp only [List.map_cons, List.mem_cons, not_or] at h
    simp [List.lookup, beq_eq_false_iff_ne.mpr h.1, ih h.2]

theorem mem_keys_of_lookup_isSome {β : Type} (k : String)
    (l : List (String × β)) (h : (List.lookup k l).isSome) :
    k ∈ l.map Prod.fst := by
  by_contra hmem
  rw [lookup_eq_none_of_not_mem k l hmem] at h
  simp at h

theorem findMissingAux_eq_ok (dst : Catalog) (src : Catalog)
    (missing : List (String × String))
    (hnd : (src.map Prod.fst).Nodup)
    (hdisj : ∀ n, (List.lookup n missing).isSome → n ∉ src.map Prod.fst) :
    findMissingAux dst src missing = .ok (missing ++ missingOf src dst) := by
  induction src generalizing missing with
  | nil => simp [findMissingAux, missingOf]
  | cons p rest ih =>
    obtain ⟨name, info⟩ := p
    simp only [List.map_cons, List.nodup_cons] at hnd
    obtain ⟨hn, hnd'⟩ := hnd
    have hdisj' : ∀ n, (List.lookup n missing).isSome → n ∉ rest.map Prod.fst := by
      intro n h
      have := hdisj n h
      simp only [List.map_cons, List.mem_cons, not_or] at this
      exact this.2
    cases hdst : List.lookup name dst with
    | some v =>
      rw [show findMissingAux dst ((name, info) :: rest) missing =
            findMissingAux dst rest missing by
        simp [findMissingAux, hdst]]
      rw [ih missing hnd' hdisj']
      rw [missingOf_cons_in_dst name info rest dst v hdst]
    | none =>
      cases hm : List.lookup name missing with
      | some w =>
        exfalso
        have := hdisj name (by rw [hm]; rfl)
        simp at this
      | none =>
        rw [show findMissingAux dst ((name, info) :: rest) missing =
              findMissingAux dst rest (missing ++ [(name, info.path)]) by
          simp [findMissingAux, hdst, hm]]
        rw [ih (missing ++ [(name, info.path)]) hnd' ?_]
        · rw [missingOf_cons_missing name info rest dst hdst]
          simp
        · intro n h
          rw [lookup_append] at h
          cases hm2 : List.lookup n missing with
          | some w => exact hdisj' n (by rw [hm2]; rfl)
          | none =>
            rw [hm2, Option.none_or] at h
            have hn2 : n = name := by
              have := mem_keys_of_lookup_isSome n [(name, info.path)] h
              simpa using this
            rw [hn2]
            exact hn

theorem missingOf_keys_sublist (src dst : Catalog) :
    ((missingOf src dst).map Prod.fst).Sublist (src.map Prod.fst) := by
  have h1 : (missingOf src dst).map Prod.fst =
      (src.filter (fun p => (List.lookup p.1 dst).isNone)).map Prod.fst := by
    simp [missingOf, List.map_map]
  rw [h1]
  exact (List.filter_sublist src).map Prod.fst

/-- C10: on well-formed catalogs (the source's names are unique, as a
parsed JSON object guarantees) `find_missing_media` never reaches its
duplicate-source-name `ValueError`: the run always completes and returns
the missing-media report. -/
theorem find_missing_media_no_duplicate_error (src dst : Catalog)
    (hnd : (src.map Prod.fst).Nodup) :
    find_missing_media src dst = .ok (missingOf src dst) := by
  have h := findMissingAux_eq_ok dst src [] hnd (by intro n h; simp [List.lookup] at h)
  simpa [find_missing_media] using h

/-- Witness for C10: a concrete two-entry source against a one-entry
destination completes without the duplicate-name error. -/
theorem find_missing_media_no_duplicate_error_witness :
    find_missing_media exSrcCatalog exDstCatalog =
      .ok (missingOf exSrcCatalog exDstCatalog) :=
  find_missing_media_no_duplicate_error exSrcCatalog exDstCatalog (by decide)

theorem missingOf_lookup (src dst : Catalog)
    (hnd : (src.map Prod.fst).Nodup) (name : String) :
    List.lookup name (missingOf src dst) =
      (List.lookup name src).bind fun info =>
        if (List.lookup name dst).isSome then none else some info.path := by
  induction src with
  | nil => simp [missingOf, List.lookup]
  | cons p rest ih =>
    obtain ⟨nm, info⟩ := p
    simp only [List.map_cons, List.nodup_cons] at hnd
    obtain ⟨hn, hnd'⟩ := hnd
    by_cases hname : name = nm
    · subst hname
      rw [lookup_cons_self]
      cases hdst : List.lookup name dst with
      | some v =>
        rw [missingOf_cons_in_dst name info rest dst v hdst]
        rw [lookup_eq_none_of_not_mem name (missingOf rest dst) ?_]
        · simp [hdst]
        · intro hmem
          exact hn ((missingOf_keys_sublist rest dst).subset hmem)
      | none =>
        rw [missingOf_cons_missing name info rest dst hdst]
        rw [lookup_cons_self]
        simp [hdst]
    · rw [lookup_cons_ne _ _ _ _ hname]
      cases hdst : List.lookup nm dst with
      | some v =>
        rw [missingOf_cons_in_dst nm info rest dst v hdst]
        exact ih hnd'
      | none =>
        rw [missingOf_cons_missing nm info rest dst hdst]
        rw [lookup_cons_ne _ _ _ _ hname]
        exact ih hnd'

/-- C2: on well-formed catalogs the persisted DivergenceReport document
holds exactly the source names absent from the destination, each mapped to
the source record's path; a name present in both catalogs is never in the
document, whatever its hashes. -/
theorem find_missing_media_report_spec (src dst : Catalog)
    (hnd : (src.map Prod.fst).Nodup) :
    ∃ m, find_missing_media src dst = .ok m ∧
      (m.map Prod.fst).Nodup ∧
      ∀ name : String, List.lookup name m =
        (List.lookup name src).bind fun info =>
          if (List.lookup name dst).isSome then none else some info.path := by
  refine ⟨missingOf src dst, ?_, ?_, ?_⟩
  · have h := findMissingAux_eq_ok dst src [] hnd
      (by intro n h; simp [List.lookup] at h)
    simpa [find_missing_media] using h
  · exact hnd.sublist (missingOf_keys_sublist src dst)
  · exact missingOf_lookup src dst hnd

/-- Witness for C2 at concrete catalogs: b.jpg is missing, a.jpg (present
in both, hashes differing) is not in the document. -/
theorem find_missing_media_report_spec_witness :
    ∃ m : List (String × String),
      find_missing_media exSrcCatalog exDstCatalog = .ok m ∧
      (m.map Prod.fst).Nodup ∧
      ∀ name : String, List.lookup name m =
        (List.lookup name exSrcCatalog).bind fun info =>
          if (List.lookup name exDstCatalog).isSome then none
          else some info.path :=
  find_missing_media_report_spec exSrcCatalog exDstCatalog (by decide)

/-- The `geoData` object of a sidecar document.  The JSON numbers are
modelled as rationals; the guard only compares them for equality. -/
structure GeoData where
  latitude : ℚ
  longitude : ℚ
  altitude : ℚ
  latitudeSpan : ℚ
  longitudeSpan : ℚ
deriving DecidableEq

/-- The `photoTakenTime` object of a sidecar document: epoch seconds and
the human-readable rendering. -/
structure PhotoTakenTime where
  timestamp : Int
  formatted : String
deriving DecidableEq

/-- A sidecar SupplementalMetadata document. -/
structure SupplementalMetadata where
  title : String
  photoTakenTime : PhotoTakenTime
  geoData : GeoData
deriving DecidableEq

/-- Embedding of the guard condition of `_check_geodata`
(gphoto_parser.py).  The source line is the Python chained comparison
`latitude != longitude != altitude != latitude_span != longitude_span != 0.0`,
which Python evaluates as the conjunction of the five adjacent
inequations; `true` means the `ValueError` is raised. -/
def check_geodata_raises (meta : SupplementalMetadata) : Bool :=
  decide (meta.geoData.latitude ≠ meta.geoData.longitude) &&
  decide (meta.geoData.longitude ≠ meta.geoData.altitude) &&
  decide (meta.geoData.altitude ≠ meta.geoData.latitudeSpan) &&
  decide (meta.geoData.latitudeSpan ≠ meta.geoData.longitudeSpan) &&
  decide (meta.geoData.longitudeSpan ≠ 0)

/-- C3: the geodata guard at a failing input.  The sidecar whose latitude
is 1.0 while the other four fields are 0.0 carries a nonzero geodata
field, yet the chained comparison is false (its second link compares
longitude with altitude, both 0.0), so `_check_geodata` does not raise —
against the claim.  The all-zero document is accepted, as the claim
states. -/
theorem check_geodata_chained_comparison_bug :
    check_geodata_raises ⟨"a.jpg", ⟨0, "Jun 15, 2023, 2:10:22 PM UTC"⟩, ⟨1, 0, 0, 0, 0⟩⟩ = false ∧
    (1 : ℚ) ≠ 0 ∧
    check_geodata_raises ⟨"a.jpg", ⟨0, "Jun 15, 2023, 2:10:22 PM UTC"⟩, ⟨0, 0, 0, 0, 0⟩⟩ = false := by
  refine ⟨?_, ?_, ?_⟩
  · decide
  · decide
  · decide

/-- A timezone-aware datetime value, modelled by the instant it denotes
(seconds since the Unix epoch) and the name of the zone it is rendered
in.  `datetime.astimezone` preserves the instant and changes the zone. -/
structure ZonedInstant where
  epochSecond : Int
  zone : String
deriving DecidableEq

/-- `datetime.datetime.fromtimestamp(ts, tz=datetime.timezone.utc)`. -/
def fromtimestamp_utc (ts : Int) : ZonedInstant := ⟨ts, "UTC"⟩

/-- `date_time.astimezone(tz=ZoneInfo('Europe/Rome'))`: same instant,
retagged with the Rome zone. -/
def astimezone_rome (d : ZonedInstant) : ZonedInstant :=
  ⟨d.epochSecond, "Europe/Rome"⟩

/-- Embedding of `_get_datetime_from_google_metadata` (gphoto_parser.py):
reject unless `formatted` ends with "UTC", then interpret `timestamp` as
epoch seconds in UTC and convert the result to Europe/Rome. -/
def get_datetime_from_google_metadata (meta : SupplementalMetadata) :
    Except String ZonedInstant :=
  if ¬ meta.photoTakenTime.formatted.endsWith "UTC" then
    .error ("Expected formatted field in photoTakenTime to end with UTC, but got: "
      ++ meta.photoTakenTime.formatted)
  else
    .ok (astimezone_rome (fromtimestamp_utc meta.photoTakenTime.timestamp))

/-- C8: sidecar timestamp parsing errors exactly when `formatted` does not
end with "UTC"; an accepted document yields the instant `timestamp`
seconds after the epoch, carried to the Europe/Rome zone. -/
theorem google_metadata_datetime_spec (meta : SupplementalMetadata) :
    ((∃ e, get_datetime_from_google_metadata meta = .error e) ↔
      ¬ meta.photoTakenTime.formatted.endsWith "UTC" = true) ∧
    (meta.photoTakenTime.formatted.endsWith "UTC" = true →
      get_datetime_from_google_metadata meta =
        .ok ⟨meta.photoTakenTime.timestamp, "Europe/Rome"⟩) := by
  by_cases h : meta.photoTakenTime.formatted.endsWith "UTC" = true <;>
    simp [get_datetime_from_google_metadata, astimezone_rome, fromtimestamp_utc, h]

/-- A civil timestamp as carried by the EXIF DateTimeOriginal tag
("YYYY:MM:DD HH:MM:SS"). -/
structure Timestamp where
  year : Nat
  month : Nat
  day : Nat
  hour : Nat
  minute : Nat
  second : Nat
deriving DecidableEq

/-- The part of an image's EXIF block the update-metadata flow reads and
writes: the DateTimeOriginal field (Exif tag 36867), absent or holding a
timestamp. -/
structure ExifState where
  dateTimeOriginal : Option Timestamp
deriving DecidableEq

/-- What one run of an image parser did to a file. -/
inductive ParseOutcome where
  | wrote : ParseOutcome
  | skippedMatching : ParseOutcome
  | conflictFlagged : ParseOutcome
deriving DecidableEq

/-- Leap year rule used by Python's `datetime`. -/
def isLeapYear (y : Nat) : Bool :=
  y % 4 == 0 && (y % 100 != 0 || y % 400 == 0)

/-- Days in a month, as validated by the `datetime.datetime` constructor. -/
def daysInMonth (y m : Nat) : Nat :=
  if m = 2 then (if isLeapYear y then 29 else 28)
  else if m = 4 ∨ m = 6 ∨ m = 9 ∨ m = 11 then 30
  else 31

/-- Numeric value of a digit string. -/
def digitsToNat (ds : List Char) : Nat :=
  ds.foldl (fun acc c => acc * 10 + (c.toNat - '0'.toNat)) 0

/-- `datetime.strptime(date_str, "%Y%m%d")` on the 8-digit date group:
four digits of year, two of month, two of day, validated by the datetime
constructor (year 1..9999, month 1..12, day within the month).  `none` is
the raised `ValueError`. -/
def parseDate8 (ds : List Char) : Option (Nat × Nat × Nat) :=
  if ds.length = 8 ∧ ds.all Char.isDigit then
    let y := digitsToNat (ds.take 4)
    let m := digitsToNat ((ds.drop 4).take 2)
    let d := digitsToNat (ds.drop 6)
    if 1 ≤ y ∧ y ≤ 9999 ∧ 1 ≤ m ∧ m ≤ 12 ∧ 1 ≤ d ∧ d ≤ daysInMonth y m then
      some (y, m, d)
    else none
  else none

/-- The `%H%M%S` part of `datetime.strptime(date_str + time_str,
"%Y%m%d%H%M%S")`: two digits each of hour, minute, second. -/
def parseTime6 (ts : List Char) : Option (Nat × Nat × Nat) :=
  if ts.length = 6 ∧ ts.all Char.isDigit then
    let h := digitsToNat (ts.take 2)
    let mi := digitsToNat ((ts.drop 2).take 2)
    let s := digitsToNat (ts.drop 4)
    if h ≤ 23 ∧ mi ≤ 59 ∧ s ≤ 59 then some (h, mi, s) else none
  else none

/-- Embedding of `wa_images_parser` (update_metadata.py), given the date
group of the matched filename and the file's EXIF state.  If
DateTimeOriginal is present, only its year/month/day are compared with the
filename date: a mismatch is flagged for manual review, a match is
skipped, and in both cases the function returns without saving.  Only
when the field is absent is the filename date written, at time 00:00:00.
`none` is a raised exception (invalid date in the filename). -/
def wa_images_parse (dateGroup : List Char) (st : ExifState) :
    Option (ExifState × ParseOutcome) :=
  (parseDate8 dateGroup).map fun ymd =>
    match st.dateTimeOriginal with
    | some dt =>
      if dt.year ≠ ymd.1 ∨ dt.month ≠ ymd.2.1 ∨ dt.day ≠ ymd.2.2 then
        (st, .conflictFlagged)
      else
        (st, .skippedMatching)
    | none =>
      (⟨some ⟨ymd.1, ymd.2.1, ymd.2.2, 0, 0, 0⟩⟩, .wrote)

/-- Embedding of `telegram_images_parser` (update_metadata.py), given the
date and time groups of the matched filename.  With DateTimeOriginal
present the full timestamp is compared; only when absent is the filename
timestamp written. -/
def telegram_images_parse (dateGroup timeGroup : List Char)
    (st : ExifState) : Option (ExifState × ParseOutcome) :=
  (parseDate8 dateGroup).bind fun ymd =>
    (parseTime6 timeGroup).map fun hms =>
      match st.dateTimeOriginal with
      | some dt =>
        if dt ≠ ⟨ymd.1, ymd.2.1, ymd.2.2, hms.1, hms.2.1, hms.2.2⟩ then
          (st, .conflictFlagged)
        else
          (st, .skippedMatching)
      | none =>
        (⟨some ⟨ymd.1, ymd.2.1, ymd.2.2, hms.1, hms.2.1, hms.2.2⟩⟩, .wrote)

/-- Match `count` digits at the head of the list, returning them and the
remainder. -/
def matchDigits : Nat → List Char → Option (List Char × List Char)
  | 0, rest => some ([], rest)
  | _ + 1, [] => none
  | n + 1, c :: rest =>
    if c.isDigit then
      (matchDigits n rest).map fun p => (c :: p.1, p.2)
    else none

/-- The anchored WhatsApp-image pattern of update_metadata.py,
`IMG-(\d{8})-WA.*$` under `re.match`: returns the date group. -/
def waImagePattern (name : List Char) : Option (List Char) :=
  match name with
  | 'I' :: 'M' :: 'G' :: '-' :: rest =>
    match matchDigits 8 rest with
    | some (ds, '-' :: 'W' :: 'A' :: _) => some ds
    | _ => none
  | _ => none

/-- The anchored Telegram-image pattern of update_metadata.py,
`IMG_(\d{8})_(\d{6})_.*$` under `re.match`: returns the date and time
groups. -/
def telegramImagePattern (name : List Char) : Option (List Char × List Char) :=
  match name with
  | 'I' :: 'M' :: 'G' :: '_' :: rest =>
    match matchDigits 8 rest with
    | some (ds, '_' :: rest2) =>
      match matchDigits 6 rest2 with
      | some (ts, '_' :: _) => some (ds, ts)
      | _ => none
    | _ => none
  | _ => none

/-- The timestamp a WhatsApp-image filename resolves to: the encoded date
at midnight. -/
def waResolvedTimestamp (name : List Char) : Option Timestamp :=
  (waImagePattern name).bind fun ds =>
    (parseDate8 ds).map fun ymd => ⟨ymd.1, ymd.2.1, ymd.2.2, 0, 0, 0⟩

/-- The timestamp a Telegram-image filename resolves to: the encoded date
and time. -/
def telegramResolvedTimestamp (name : List Char) : Option Timestamp :=
  (telegramImagePattern name).bind fun g =>
    (parseDate8 g.1).bind fun ymd =>
      (parseTime6 g.2).map fun hms =>
        ⟨ymd.1, ymd.2.1, ymd.2.2, hms.1, hms.2.1, hms.2.2⟩

/-- A concrete EXIF state with an embedded capture time, for the
witnesses below. -/
def exTimestamp : Timestamp := ⟨2023, 6, 15, 14, 30, 22⟩

/-- An EXIF block already holding `exTimestamp`. -/
def exExifState : ExifState := ⟨some exTimestamp⟩

/-- C6: filename-derived timestamps.  IMG-20230615-WA0003.jpg resolves to
2023-06-15 00:00:00 and IMG_20230615_143022_001.jpg to
2023-06-15T14:30:22; every WhatsApp resolution has time 00:00:00; and for
a file with no embedded DateTimeOriginal the parsers write exactly the
resolved timestamp. -/
theorem filename_timestamp_resolution :
    waResolvedTimestamp "IMG-20230615-WA0003.jpg".data =
      some ⟨2023, 6, 15, 0, 0, 0⟩ ∧
    telegramResolvedTimestamp "IMG_20230615_143022_001.jpg".data =
      some ⟨2023, 6, 15, 14, 30, 22⟩ ∧
    (∀ name ts, waResolvedTimestamp name = some ts →
      ts.hour = 0 ∧ ts.minute = 0 ∧ ts.second = 0) ∧
    (∀ name ds st, waImagePattern name = some ds →
      st.dateTimeOriginal = none →
      wa_images_parse ds st =
        (waResolvedTimestamp name).map fun ts =>
          (⟨some ts⟩, ParseOutcome.wrote)) ∧
    (∀ name g st, telegramImagePattern name = some g →
      st.dateTimeOriginal = none →
      telegram_images_parse g.1 g.2 st =
        (telegramResolvedTimestamp name).map fun ts =>
          (⟨some ts⟩, ParseOutcome.wrote)) := by
  refine ⟨by decide, by decide, ?_, ?_, ?_⟩
  · intro name ts h
    simp only [waResolvedTimestamp, Option.bind_eq_some] at h
    obtain ⟨ds, _, h⟩ := h
    simp only [Option.map_eq_some'] at h
    obtain ⟨ymd, _, h⟩ := h
    subst h
    exact ⟨rfl, rfl, rfl⟩
  · intro name ds st hpat hdto
    simp only [waResolvedTimestamp, hpat, Option.some_bind]
    cases hp : parseDate8 ds with
    | none => simp [wa_images_parse, hp]
    | some ymd => simp [wa_images_parse, hp, hdto]
  · intro name g st hpat hdto
    simp only [telegramResolvedTimestamp, hpat, Option.some_bind]
    cases hp : parseDate8 g.1 with
    | none => simp [telegram_images_parse, hp]
    | some ymd =>
      cases ht : parseTime6 g.2 with
      | none => simp [telegram_images_parse, hp, ht]
      | some hms => simp [telegram_images_parse, hp, ht, hdto]

/-- C5: a file whose EXIF block already holds a DateTimeOriginal is never
written by the update-metadata flow.  Both parsers return the state
unchanged and never report a write; the WhatsApp parser judges
matching/conflict on year, month and day only, the Telegram parser on the
full timestamp. -/
theorem embedded_never_overwritten (ds ts : List Char) (st : ExifState)
    (dt : Timestamp) (h : st.dateTimeOriginal = some dt) :
    (∀ r, wa_images_parse ds st = some r → r.1 = st ∧ r.2 ≠ .wrote) ∧
    (∀ r, telegram_images_parse ds ts st = some r →
      r.1 = st ∧ r.2 ≠ .wrote) ∧
    (∀ y m d, parseDate8 ds = some (y, m, d) →
      (wa_images_parse ds st = some (st, .skippedMatching) ↔
        (dt.year = y ∧ dt.month = m ∧ dt.day = d))) ∧
    (∀ y m d hh mi s, parseDate8 ds = some (y, m, d) →
      parseTime6 ts = some (hh, mi, s) →
      (telegram_images_parse ds ts st = some (st, .skippedMatching) ↔
        dt = ⟨y, m, d, hh, mi, s⟩)) := by
  refine ⟨?_, ?_, ?_, ?_⟩
  · intro r hr
    cases hp : parseDate8 ds with
    | none => simp [wa_images_parse, hp] at hr
    | some ymd =>
      simp only [wa_images_parse, hp, h, Option.map_some', Option.some.injEq] at hr
      by_cases hc : dt.year ≠ ymd.1 ∨ dt.month ≠ ymd.2.1 ∨ dt.day ≠ ymd.2.2
      · rw [if_pos hc] at hr
        subst hr
        exact ⟨rfl, by simp⟩
      · rw [if_neg hc] at hr
        subst hr
        exact ⟨rfl, by simp⟩
  · intro r hr
    cases hp : parseDate8 ds with
    | none => simp [telegram_images_parse, hp] at hr
    | some ymd =>
      cases ht : parseTime6 ts with
      | none => simp [telegram_images_parse, hp, ht] at hr
      | some hms =>
        simp only [telegram_images_parse, hp, ht, h, Option.some_bind,
          Option.map_some', Option.some.injEq] at hr
        by_cases hc : dt ≠ ⟨ymd.1, ymd.2.1, ymd.2.2, hms.1, hms.2.1, hms.2.2⟩
        · rw [if_pos hc] at hr
          subst hr
          exact ⟨rfl, by simp⟩
        · rw [if_neg hc] at hr
          subst hr
          exact ⟨rfl, by simp⟩
  · intro y m d hp
    simp only [wa_images_parse, hp, h, Option.map_some', Option.some.injEq]
    by_cases hc : dt.year ≠ y ∨ dt.month ≠ m ∨ dt.day ≠ d
    · rw [if_pos hc]
      constructor
      · intro hr
        simp at hr
      · intro hr
        exact absurd hc (by simp [hr.1, hr.2.1, hr.2.2])
    · rw [if_neg hc]
      push_neg at hc
      simp [hc.1, hc.2.1, hc.2.2]
  · intro y m d hh mi s hp ht
    simp only [telegram_images_parse, hp, ht, h, Option.some_bind,
      Option.map_some', Option.some.injEq]
    by_cases hc : dt ≠ ⟨y, m, d, hh, mi, s⟩
    · rw [if_pos hc]
      constructor
      · intro hr
        simp at hr
      · intro hr
        exact absurd hc (by simp [hr])
    · rw [if_neg hc]
      push_neg at hc
      simp [hc]

/-- Witness for C5 at the concrete state whose embedded timestamp is
2023-06-15T14:30:22, against the groups "20230615" and "143022". -/
theorem embedded_never_overwritten_witness :
    (∀ r, wa_images_parse "20230615".data exExifState = some r →
      r.1 = exExifState ∧ r.2 ≠ .wrote) ∧
    (∀ r, telegram_images_parse "20230615".data "143022".data exExifState = some r →
      r.1 = exExifState ∧ r.2 ≠ .wrote) ∧
    (∀ y m d, parseDate8 "20230615".data = some (y, m, d) →
      (wa_images_parse "20230615".data exExifState =
          some (exExifState, .skippedMatching) ↔
        (exTimestamp.year = y ∧ exTimestamp.month = m ∧ exTimestamp.day = d))) ∧
    (∀ y m d hh mi s, parseDate8 "20230615".data = some (y, m, d) →
      parseTime6 "143022".data = some (hh, mi, s) →
      (telegram_images_parse "20230615".data "143022".data exExifState =
          some (exExifState, .skippedMatching) ↔
        exTimestamp = ⟨y, m, d, hh, mi, s⟩)) :=
  embedded_never_overwritten "20230615".data "143022".data exExifState exTimestamp rfl

/-- C7: resolving and writing is idempotent.  If a run of a parser ends in
state st1, a second run on st1 gives back st1 unchanged and performs no
write (the embedded-value check short-circuits it). -/
theorem resolve_write_idempotent (ds ts : List Char) (st st1 : ExifState)
    (a : ParseOutcome) :
    (wa_images_parse ds st = some (st1, a) →
      ∃ a2, wa_images_parse ds st1 = some (st1, a2) ∧ a2 ≠ .wrote) ∧
    (telegram_images_parse ds ts st = some (st1, a) →
      ∃ a2, telegram_images_parse ds ts st1 = some (st1, a2) ∧ a2 ≠ .wrote) := by
  constructor
  · intro h
    cases hp : parseDate8 ds with
    | none => simp [wa_images_parse, hp] at h
    | some ymd =>
      cases hdto : st.dateTimeOriginal with
      | some dt =>
        simp only [wa_images_parse, hp, hdto, Option.map_some',
          Option.some.injEq] at h
        by_cases hc : dt.year ≠ ymd.1 ∨ dt.month ≠ ymd.2.1 ∨ dt.day ≠ ymd.2.2
        · rw [if_pos hc] at h
          have hst : st1 = st := (congrArg Prod.fst h).symm
          subst hst
          refine ⟨.conflictFlagged, ?_, by simp⟩
          simp only [wa_images_parse, hp, Option.map_some', hdto]
          rw [if_pos hc]
        · rw [if_neg hc] at h
          have hst : st1 = st := (congrArg Prod.fst h).symm
          subst hst
          refine ⟨.skippedMatching, ?_, by simp⟩
          simp only [wa_images_parse, hp, Option.map_some', hdto]
          rw [if_neg hc]
      | none =>
        simp only [wa_images_parse, hp, hdto, Option.map_some',
          Option.some.injEq] at h
        have hst : st1 = ⟨some ⟨ymd.1, ymd.2.1, ymd.2.2, 0, 0, 0⟩⟩ :=
          (congrArg Prod.fst h).symm
        subst hst
        refine ⟨.skippedMatching, ?_, by simp⟩
        simp only [wa_images_parse, hp, Option.map_some']
        rw [if_neg (by simp)]
  · intro h
    cases hp : parseDate8 ds with
    | none => simp [telegram_images_parse, hp] at h
    | some ymd =>
      cases ht : parseTime6 ts with
      | none => simp [telegram_images_parse, hp, ht] at h
      | some hms =>
        cases hdto : st.dateTimeOriginal with
        | some dt =>
          simp only [telegram_images_parse, hp, ht, hdto, Option.some_bind,
            Option.map_some', Option.some.injEq] at h
          by_cases hc : dt ≠ ⟨ymd.1, ymd.2.1, ymd.2.2, hms.1, hms.2.1, hms.2.2⟩
          · rw [if_pos hc] at h
            have hst : st1 = st := (congrArg Prod.fst h).symm
            subst hst
            refine ⟨.conflictFlagged, ?_, by simp⟩
            simp only [telegram_images_parse, hp, ht, Option.some_bind,
              Option.map_some', hdto]
            rw [if_pos hc]
          · rw [if_neg hc] at h
            have hst : st1 = st := (congrArg Prod.fst h).symm
            subst hst
            refine ⟨.skippedMatching, ?_, by simp⟩
            simp only [telegram_images_parse, hp, ht, Option.some_bind,
              Option.map_some', hdto]
            rw [if_neg hc]
        | none =>
          simp only [telegram_images_parse, hp, ht, hdto, Option.some_bind,
            Option.map_some', Option.some.injEq] at h
          have hst : st1 = ⟨some ⟨ymd.1, ymd.2.1, ymd.2.2, hms.1, hms.2.1, hms.2.2⟩⟩ :=
            (congrArg Prod.fst h).symm
          subst hst
          refine ⟨.skippedMatching, ?_, by simp⟩
          simp only [telegram_images_parse, hp, ht, Option.some_bind,
            Option.map_some']
          rw [if_neg (by simp)]

end HomeUtils
